import Mathlib

/-!
Verification of the recoil-controller core against its specification.

The definitions below are a shallow embedding of the Python sources:
  - `src/core/plugin_api.py`  (WeaponConfig)
  - `src/core/engine.py`      (RecoilEngine, AutoClickThread)
  - `src/app.py`              (State: the synth-guard counter)

Python floats are modelled as rationals, Python ints as integers, the
input backend as a pure recorder of emitted events, and each loop
iteration of the two background threads as an explicit tick function on
an explicit state record.  Clock reads (time.perf_counter) are supplied
as parameters of a tick.
-/

/-- Weapon profile record, from `core/plugin_api.py` (`WeaponConfig`),
with the dataclass defaults.  Floats are modelled as rationals. -/
structure WeaponConfig where
  name : String
  defaultPull : ℚ := 2
  initialDuration : ℚ := 1/2
  steadyPull : ℚ := 8/5
  sleepTime : ℤ := 8
  acceleration : ℚ := 200
deriving Repr, DecidableEq

/-- Python `int(q)` on a rational: truncation toward zero. -/
def int_trunc (q : ℚ) : ℤ := if 0 ≤ q then ⌊q⌋ else ⌈q⌉

/-- Nearest-integer rounding, the reading of the word `round` in the
specification (half rounds up). -/
def round_nearest (q : ℚ) : ℤ := ⌊q + 1/2⌋

/-- Events emitted to the input backend (`core/input_backend.py`
operations invoked by the engine). -/
inductive Ev where
  | keyDown (c : Char)
  | keyUp (c : Char)
  | moveMouse (dx dy : ℤ)
deriving Repr, DecidableEq

/-- Number of `keyDown c` events in a trace. -/
def downs (tr : List Ev) (c : Char) : ℕ :=
  tr.countP (fun e => decide (e = Ev.keyDown c))

/-- Number of `keyUp c` events in a trace. -/
def ups (tr : List Ev) (c : Char) : ℕ :=
  tr.countP (fun e => decide (e = Ev.keyUp c))

/-- Engine state: the fields of `RecoilEngine.__init__` relevant to
control flow (`_trigger_key`, `_trigger_held`, `_running`) together
with the loop-local session variables of `RecoilEngine._loop`
(`shooting`, `count`). -/
structure EngineSt where
  triggerKey : Char
  triggerHeld : Bool
  running : Bool
  shooting : Bool
  count : ℕ
deriving Repr, DecidableEq

/-- The state produced by `RecoilEngine.__init__`: trigger key `'p'`,
not held, not running. -/
def engineInit : EngineSt :=
  { triggerKey := 'p', triggerHeld := false, running := false,
    shooting := false, count := 0 }

/-- A step of the engine: a state transformer that also records the
backend events it emits. -/
def Step : Type := EngineSt → EngineSt × List Ev

/-- Step that does nothing. -/
def skipS : Step := fun s => (s, [])

/-- Sequential composition of two steps, concatenating their traces. -/
def seqS (f g : Step) : Step := fun s =>
  let a := f s
  let b := g a.1
  (b.1, a.2 ++ b.2)

/-- Branch on the current state. -/
def branchS (c : EngineSt → Bool) (f g : Step) : Step := fun s =>
  if c s then f s else g s

/-- `RecoilEngine._ensure_trigger_down`: no-op when the trigger is
already held, otherwise key-down the trigger key and set the flag. -/
def ensure_trigger_down : Step := fun s =>
  if s.triggerHeld then (s, [])
  else ({ s with triggerHeld := true }, [Ev.keyDown s.triggerKey])

/-- `RecoilEngine.release_trigger`: no-op when the trigger is not held,
otherwise key-up the trigger key and clear the flag. -/
def release_trigger : Step := fun s =>
  if s.triggerHeld then ({ s with triggerHeld := false }, [Ev.keyUp s.triggerKey])
  else (s, [])

/-- Python whitespace characters recognised by `str.strip` (the ASCII
ones; a single-character string strips to empty iff its character is
one of these). -/
def isPythonSpace (c : Char) : Bool :=
  c == ' ' || c == '\t' || c == '\n' || c == '\x0d' || c == '\x0b' || c == '\x0c'

/-- The key-normalisation prefix of `RecoilEngine.set_trigger_key`:
`if not key: key='p'`, then `key = str(key)[0]`, then
`if not key.strip(): key='p'`, then `key = key.lower()`.  `none`
models Python `None`. -/
def normalize_key (key : Option String) : Char :=
  match key with
  | none => 'p'
  | some s =>
    match s.data with
    | [] => 'p'
    | c :: _ => (if isPythonSpace c then 'p' else c).toLower

/-- `RecoilEngine.set_trigger_key`: normalise the key; return if it is
unchanged; otherwise release the old key if it was held, swap the key,
and re-press the new key if the old one was held. -/
def set_trigger_key (key : Option String) : Step := fun s =>
  let k := normalize_key key
  if k = s.triggerKey then (s, [])
  else
    let wasHeld := s.triggerHeld
    let a := if wasHeld then release_trigger s else (s, [])
    let s1 : EngineSt := { a.1 with triggerKey := k }
    let b := if wasHeld then ensure_trigger_down s1 else (s1, [])
    (b.1, a.2 ++ b.2)

/-- The built-in pull curve of `RecoilEngine._loop` (the branch taken
when no custom calculation function is supplied): a linear ramp in the
tick count while `elapsed < initialDuration`, then the steady value. -/
def default_pull_curve (cfg : WeaponConfig) (elapsed : ℚ) (count : ℕ) : ℚ :=
  if elapsed < cfg.initialDuration then
    cfg.defaultPull + (count : ℚ) / cfg.acceleration
  else
    cfg.steadyPull

/-- Per-tick pull computation of `RecoilEngine._loop`: a supplied
custom function is used, its failure (modelled by `Option.none`)
replaced by the profile steady pull; otherwise the built-in curve. -/
def pull_of (calcf : Option (ℚ → ℕ → Option ℚ)) (cfg : WeaponConfig)
    (elapsed : ℚ) (count : ℕ) : ℚ :=
  match calcf with
  | some f =>
    match f elapsed count with
    | some v => v
    | none => cfg.steadyPull
  | none => default_pull_curve cfg elapsed count

/-- The per-tick snapshot returned by `get_state()` as read by
`RecoilEngine._loop` (with the dict defaults of the code). -/
structure Polled where
  fire_enabled : Bool := true
  right_hold : Bool := false
  left_hold : Bool := false
  press_key_enabled : Bool := true
deriving Repr, DecidableEq

/-- The firing condition of `RecoilEngine._loop`:
`fire_enabled and right_hold and left_hold`. -/
def should_fire (st : Polled) : Bool :=
  st.fire_enabled && st.right_hold && st.left_hold

/-- Loop phase: `if not press_key_enabled and self._trigger_held:
release_trigger()`. -/
def phase_release_disabled (pke : Bool) : Step :=
  branchS (fun s => !pke && s.triggerHeld) release_trigger skipS

/-- Loop phase: shooting start (reset the session, press the trigger
if `press_key_enabled`). -/
def phase_start (fire pke : Bool) : Step :=
  branchS (fun s => fire && !s.shooting)
    (seqS (fun s => ({ s with shooting := true, count := 0 }, []))
      (if pke then ensure_trigger_down else skipS))
    skipS

/-- Loop phase: the shooting tick (hold or release the trigger per
`press_key_enabled`, bump the tick count, compute the pull and emit the
vertical mouse move `move_mouse(0, int(pull))`). -/
def phase_shoot (fire pke : Bool) (cfg : WeaponConfig)
    (calcf : Option (ℚ → ℕ → Option ℚ)) (elapsed : ℚ) : Step :=
  branchS (fun s => s.shooting && fire)
    (seqS (if pke then ensure_trigger_down else release_trigger)
      (seqS (fun s => ({ s with count := s.count + 1 }, []))
        (fun s => (s, [Ev.moveMouse 0 (int_trunc (pull_of calcf cfg elapsed s.count))]))))
    skipS

/-- Loop phase: shooting end (reset the session and release the
trigger). -/
def phase_end (fire : Bool) : Step :=
  branchS (fun s => s.shooting && !fire)
    (seqS (fun s => ({ s with shooting := false, count := 0 }, []))
      release_trigger)
    skipS

/-- One iteration of `RecoilEngine._loop` (a no-op once `_running` is
false, which is when the real loop exits).  `elapsed` stands for
`time.perf_counter() - start_time` at this iteration. -/
def tick (st : Polled) (cfg : WeaponConfig)
    (calcf : Option (ℚ → ℕ → Option ℚ)) (elapsed : ℚ) : Step := fun s =>
  if s.running then
    (seqS (phase_release_disabled st.press_key_enabled)
      (seqS (phase_start (should_fire st) st.press_key_enabled)
        (seqS (phase_shoot (should_fire st) st.press_key_enabled cfg calcf elapsed)
          (phase_end (should_fire st)))) ) s
  else (s, [])

/-- `RecoilEngine.start`: return if already running, else mark running
and spawn the loop with a fresh session. -/
def engine_start : Step := fun s =>
  if s.running then (s, [])
  else ({ s with running := true, shooting := false, count := 0 }, [])

/-- `RecoilEngine.stop`: clear `_running`, release the trigger, then
join the loop thread, whose exit path releases the trigger again. -/
def engine_stop : Step :=
  seqS (fun s => ({ s with running := false }, []))
    (seqS release_trigger release_trigger)

/-- The operations of the engine interface that the properties range
over: lifecycle calls, trigger-key rebinding, and loop iterations under
an arbitrary polled snapshot, profile, custom calculation and clock. -/
inductive Op where
  | start : Op
  | stop : Op
  | setKey (key : Option String) : Op
  | tickOp (st : Polled) (cfg : WeaponConfig)
      (calcf : Option (ℚ → ℕ → Option ℚ)) (elapsed : ℚ) : Op

/-- Interpretation of one operation as a step. -/
def stepOf : Op → Step
  | Op.start => engine_start
  | Op.stop => engine_stop
  | Op.setKey key => set_trigger_key key
  | Op.tickOp st cfg calcf elapsed => tick st cfg calcf elapsed

/-- Run a sequence of operations from a state, concatenating the
emitted backend events. -/
def run (s : EngineSt) : List Op → EngineSt × List Ev
  | [] => (s, [])
  | op :: rest =>
    let a := stepOf op s
    let b := run a.1 rest
    (b.1, a.2 ++ b.2)

/-- The scenario-A profile of the specification. -/
def profileA : WeaponConfig :=
  { name := "A", defaultPull := 2, initialDuration := 1/2,
    steadyPull := 8/5, sleepTime := 8, acceleration := 200 }

/-- C2: with no custom calculation function, the computed pull is
`defaultPull + tickCount/acceleration` while `elapsed` is below
`initialDuration` and `steadyPull` from then on; on the scenario-A
profile, `elapsed = 0.1, tickCount = 20` gives `2.1` and
`elapsed = 0.6` gives `1.6`; and for positive acceleration the ramp
branch is non-decreasing in the tick count. -/
theorem recoil_c2_default_curve :
    (∀ (cfg : WeaponConfig) (e : ℚ) (n : ℕ), e < cfg.initialDuration →
      pull_of none cfg e n = cfg.defaultPull + (n : ℚ) / cfg.acceleration) ∧
    (∀ (cfg : WeaponConfig) (e : ℚ) (n : ℕ), cfg.initialDuration ≤ e →
      pull_of none cfg e n = cfg.steadyPull) ∧
    pull_of none profileA (1/10) 20 = 21/10 ∧
    pull_of none profileA (3/5) 20 = 8/5 ∧
    (∀ (cfg : WeaponConfig) (e : ℚ) (n m : ℕ), 0 < cfg.acceleration →
      e < cfg.initialDuration → n ≤ m →
      pull_of none cfg e n ≤ pull_of none cfg e m) := by
  refine ⟨?_, ?_, ?_, ?_, ?_⟩
  · intro cfg e n h
    simp [pull_of, default_pull_curve, h]
  · intro cfg e n h
    simp [pull_of, default_pull_curve, not_lt.mpr h]
  · norm_num [pull_of, default_pull_curve, profileA]
  · norm_num [pull_of, default_pull_curve, profileA]
  · intro cfg e n m hacc he hnm
    simp only [pull_of, default_pull_curve, if_pos he]
    have h1 : (n : ℚ) ≤ (m : ℚ) := by exact_mod_cast hnm
    gcongr

/-- Witness for C2: the curve theorem applied at concrete inputs. -/
theorem recoil_c2_default_curve_witness :
    pull_of none profileA (1/10) 20 = 21/10 ∧
    pull_of none profileA (3/5) 20 = 8/5 ∧
    pull_of none profileA (1/10) 5 = 2 + (5 : ℚ) / 200 := by
  refine ⟨recoil_c2_default_curve.2.2.1, recoil_c2_default_curve.2.2.2.1, ?_⟩
  have h := recoil_c2_default_curve.1 profileA (1/10) 5 (by norm_num [profileA])
  simpa [profileA] using h

/-- Key-balance invariant tying the engine state to the trace of events
already sent to the backend: a key has exactly one unmatched key-down
iff it is the trigger key and the held flag is set, and every other key
is balanced. -/
def inv (s : EngineSt) (tr : List Ev) : Prop :=
  ∀ c : Char, downs tr c = ups tr c +
    (if s.triggerHeld = true ∧ s.triggerKey = c then 1 else 0)

/-- A step preserves the key-balance invariant. -/
def PreservesInv (f : Step) : Prop :=
  ∀ s tr, inv s tr → inv (f s).1 (tr ++ (f s).2)

theorem downs_append (t1 t2 : List Ev) (c : Char) :
    downs (t1 ++ t2) c = downs t1 c + downs t2 c := by
  simp [downs, List.countP_append]

theorem ups_append (t1 t2 : List Ev) (c : Char) :
    ups (t1 ++ t2) c = ups t1 c + ups t2 c := by
  simp [ups, List.countP_append]

theorem downs_keyDown (k c : Char) :
    downs [Ev.keyDown k] c = if k = c then 1 else 0 := by
  simp [downs, List.countP_cons]

theorem downs_keyUp (k c : Char) : downs [Ev.keyUp k] c = 0 := by
  simp [downs, List.countP_cons]

theorem downs_move (dx dy : ℤ) (c : Char) : downs [Ev.moveMouse dx dy] c = 0 := by
  simp [downs, List.countP_cons]

theorem ups_keyUp (k c : Char) :
    ups [Ev.keyUp k] c = if k = c then 1 else 0 := by
  simp [ups, List.countP_cons]

theorem ups_keyDown (k c : Char) : ups [Ev.keyDown k] c = 0 := by
  simp [ups, List.countP_cons]

theorem ups_move (dx dy : ℤ) (c : Char) : ups [Ev.moveMouse dx dy] c = 0 := by
  simp [ups, List.countP_cons]

theorem preserves_skip : PreservesInv skipS := by
  intro s tr h
  simpa [skipS] using h

theorem preserves_seq {f g : Step} (hf : PreservesInv f) (hg : PreservesInv g) :
    PreservesInv (seqS f g) := by
  intro s tr h
  have h1 := hf s tr h
  have h2 := hg (f s).1 (tr ++ (f s).2) h1
  simpa [seqS, List.append_assoc] using h2

theorem preserves_branch {c : EngineSt → Bool} {f g : Step}
    (hf : PreservesInv f) (hg : PreservesInv g) :
    PreservesInv (branchS c f g) := by
  intro s tr h
  unfold branchS
  by_cases hc : c s = true
  · simpa [hc] using hf s tr h
  · simp only [Bool.not_eq_true] at hc
    simpa [hc] using hg s tr h

theorem preserves_pure (u : EngineSt → EngineSt)
    (h1 : ∀ s, (u s).triggerHeld = s.triggerHeld)
    (h2 : ∀ s, (u s).triggerKey = s.triggerKey) :
    PreservesInv (fun s => (u s, [])) := by
  intro s tr h c
  simpa [inv, h1, h2] using h c

theorem preserves_mouse (dx : ℤ) (dy : EngineSt → ℤ) :
    PreservesInv (fun s => (s, [Ev.moveMouse dx (dy s)])) := by
  intro s tr h c
  simp only [inv, downs_append, ups_append, downs_move, ups_move]
  simpa using h c

theorem preserves_ensure : PreservesInv ensure_trigger_down := by
  intro s tr h c
  unfold ensure_trigger_down
  by_cases hh : s.triggerHeld = true
  · simpa [hh] using h c
  · have hh' : s.triggerHeld = false := by simpa using hh
    have hc := h c
    simp only [hh'] at hc
    simp only [hh', if_neg, Bool.false_eq_true, if_false]
    simp only [downs_append, ups_append, downs_keyDown, ups_keyDown]
    by_cases hk : s.triggerKey = c
    · simp only [hk] at hc ⊢
      simp_all
    · simp_all

theorem preserves_release : PreservesInv release_trigger := by
  intro s tr h c
  unfold release_trigger
  by_cases hh : s.triggerHeld = true
  · have hc := h c
    simp only [hh] at hc
    simp only [hh, if_true]
    simp only [downs_append, ups_append, downs_keyUp, ups_keyUp]
    by_cases hk : s.triggerKey = c
    · simp only [hk] at hc ⊢
      simp_all
    · simp_all
  · simpa [hh] using h c

theorem setKey_same_eq (key : Option String) (s : EngineSt)
    (hk : normalize_key key = s.triggerKey) :
    set_trigger_key key s = (s, []) := by
  simp [set_trigger_key, hk]

theorem setKey_held_eq (key : Option String) (s : EngineSt)
    (hk : ¬ normalize_key key = s.triggerKey) (hh : s.triggerHeld = true) :
    set_trigger_key key s =
      ({ s with triggerKey := normalize_key key, triggerHeld := true },
       [Ev.keyUp s.triggerKey] ++ [Ev.keyDown (normalize_key key)]) := by
  simp [set_trigger_key, hk, hh, release_trigger, ensure_trigger_down]

theorem setKey_unheld_eq (key : Option String) (s : EngineSt)
    (hk : ¬ normalize_key key = s.triggerKey) (hh : s.triggerHeld = false) :
    set_trigger_key key s = ({ s with triggerKey := normalize_key key }, []) := by
  simp [set_trigger_key, hk, hh]

theorem preserves_setKey (key : Option String) :
    PreservesInv (set_trigger_key key) := by
  intro s tr h
  by_cases hk : normalize_key key = s.triggerKey
  · rw [setKey_same_eq key s hk]
    simpa using h
  · by_cases hh : s.triggerHeld = true
    · rw [setKey_held_eq key s hk hh]
      intro c
      have hc := h c
      simp only [hh] at hc
      simp only [downs_append, ups_append, downs_keyUp, ups_keyUp,
        downs_keyDown, ups_keyDown]
      by_cases h1 : s.triggerKey = c <;> by_cases h2 : normalize_key key = c <;>
        simp_all
    · have hh' : s.triggerHeld = false := by simpa using hh
      rw [setKey_unheld_eq key s hk hh']
      intro c
      have hc := h c
      simp only [hh'] at hc
      simp_all

theorem preserves_tick (st : Polled) (cfg : WeaponConfig)
    (calcf : Option (ℚ → ℕ → Option ℚ)) (elapsed : ℚ) :
    PreservesInv (tick st cfg calcf elapsed) := by
  have hbody : PreservesInv
      (seqS (phase_release_disabled st.press_key_enabled)
        (seqS (phase_start (should_fire st) st.press_key_enabled)
          (seqS (phase_shoot (should_fire st) st.press_key_enabled cfg calcf elapsed)
            (phase_end (should_fire st))))) := by
    apply preserves_seq
    · exact preserves_branch preserves_release preserves_skip
    apply preserves_seq
    · apply preserves_branch _ preserves_skip
      apply preserves_seq
      · exact preserves_pure _ (fun s => rfl) (fun s => rfl)
      · by_cases hp : st.press_key_enabled = true <;>
          simp [hp, preserves_ensure, preserves_skip]
    apply preserves_seq
    · apply preserves_branch _ preserves_skip
      apply preserves_seq
      · by_cases hp : st.press_key_enabled = true <;>
          simp [hp, preserves_ensure, preserves_release]
      apply preserves_seq
      · exact preserves_pure _ (fun s => rfl) (fun s => rfl)
      · exact preserves_mouse 0 _
    · apply preserves_branch _ preserves_skip
      apply preserves_seq
      · exact preserves_pure _ (fun s => rfl) (fun s => rfl)
      · exact preserves_release
  intro s tr h
  unfold tick
  by_cases hr : s.running = true
  · simpa [hr] using hbody s tr h
  · simp only [Bool.not_eq_true] at hr
    simpa [hr] using h

theorem preserves_start : PreservesInv engine_start := by
  intro s tr h
  unfold engine_start
  by_cases hr : s.running = true
  · simpa [hr] using h
  · simp only [Bool.not_eq_true] at hr
    intro c
    simpa [hr] using h c

theorem preserves_stop : PreservesInv engine_stop := by
  unfold engine_stop
  apply preserves_seq
  · exact preserves_pure _ (fun s => rfl) (fun s => rfl)
  · exact preserves_seq preserves_release preserves_release

theorem preserves_stepOf (op : Op) : PreservesInv (stepOf op) := by
  cases op with
  | start => exact preserves_start
  | stop => exact preserves_stop
  | setKey key => exact preserves_setKey key
  | tickOp st cfg calcf elapsed => exact preserves_tick st cfg calcf elapsed

theorem run_inv (ops : List Op) : ∀ s tr, inv s tr →
    inv (run s ops).1 (tr ++ (run s ops).2) := by
  induction ops with
  | nil => intro s tr h; simpa [run] using h
  | cons op rest ih =>
    intro s tr h
    have h1 := preserves_stepOf op s tr h
    have h2 := ih (stepOf op s).1 (tr ++ (stepOf op s).2) h1
    simpa [run, List.append_assoc] using h2

theorem run_append (l1 l2 : List Op) (s : EngineSt) :
    run s (l1 ++ l2) =
      ((run (run s l1).1 l2).1, (run s l1).2 ++ (run (run s l1).1 l2).2) := by
  induction l1 generalizing s with
  | nil => simp [run]
  | cons op rest ih => simp [run, ih, List.append_assoc]

theorem stop_not_held (s : EngineSt) : ((engine_stop s).1).triggerHeld = false := by
  by_cases hh : s.triggerHeld = true <;>
    simp [engine_stop, seqS, release_trigger, hh]

theorem inv_init : inv engineInit [] := by
  intro c
  simp [inv, downs, ups, engineInit]

/-- C1: after any sequence of engine operations (start, stop, key
rebinds, loop iterations under arbitrary polled state) ending in
`stop()`, the trigger-held flag is false and every key-down sent to the
backend for every key has been matched by a key-up. -/
theorem recoil_c1_no_leaked_key (ops : List Op) :
    ((run engineInit (ops ++ [Op.stop])).1).triggerHeld = false ∧
    ∀ c : Char, downs ((run engineInit (ops ++ [Op.stop])).2) c =
      ups ((run engineInit (ops ++ [Op.stop])).2) c := by
  have hinv := run_inv (ops ++ [Op.stop]) engineInit [] inv_init
  have hfin : ((run engineInit (ops ++ [Op.stop])).1).triggerHeld = false := by
    rw [run_append]
    simp only [run, stepOf]
    exact stop_not_held _
  constructor
  · exact hfin
  · intro c
    have hc := hinv c
    simp only [hfin] at hc
    simpa using hc

/-- C9: `_ensure_trigger_down` is idempotent: two consecutive calls
with no intervening release issue at most one key-down to the backend
and leave the held flag true. -/
theorem recoil_c9_idempotent_hold (s : EngineSt) :
    downs ((ensure_trigger_down s).2 ++
      (ensure_trigger_down (ensure_trigger_down s).1).2) s.triggerKey ≤ 1 ∧
    (∀ c : Char, downs ((ensure_trigger_down s).2 ++
      (ensure_trigger_down (ensure_trigger_down s).1).2) c ≤ 1) ∧
    ((ensure_trigger_down (ensure_trigger_down s).1).1).triggerHeld = true := by
  by_cases hh : s.triggerHeld = true
  · refine ⟨?_, ?_, ?_⟩ <;>
      simp [ensure_trigger_down, hh, downs, List.countP_nil]
  · have hh' : s.triggerHeld = false := by simpa using hh
    refine ⟨?_, ?_, ?_⟩
    · simp [ensure_trigger_down, hh', downs_append, downs_keyDown]
    · intro c
      by_cases hc : s.triggerKey = c <;>
        simp [ensure_trigger_down, hh', downs_append, downs_keyDown, hc]
    · simp [ensure_trigger_down, hh']

/-- The synthetic-input guard counter of `app.py` (`State._synth_guard`,
a Python int). `begin_synth` increments it. -/
def begin_synth (d : ℤ) : ℤ := d + 1

/-- `State.end_synth`: decrement the guard counter only when it is
positive. -/
def end_synth (d : ℤ) : ℤ := if 0 < d then d - 1 else d

/-- `State.is_synth`: the guard is active iff the depth is positive. -/
def is_synth (d : ℤ) : Bool := decide (0 < d)

/-- Guard operations. -/
inductive GOp where
  | gbegin : GOp
  | gend : GOp
deriving Repr, DecidableEq

/-- Run a sequence of guard operations on a depth. -/
def runGuard (d : ℤ) : List GOp → ℤ
  | [] => d
  | GOp.gbegin :: rest => runGuard (begin_synth d) rest
  | GOp.gend :: rest => runGuard (end_synth d) rest

/-- Number of `gbegin` in a list of guard operations. -/
def begins (l : List GOp) : ℕ := l.countP (fun o => decide (o = GOp.gbegin))

/-- Number of `gend` in a list of guard operations. -/
def ends (l : List GOp) : ℕ := l.countP (fun o => decide (o = GOp.gend))

/-- A sequence of guard operations is balanced when no prefix closes
more sections than it opened and the whole sequence closes exactly as
many as it opened (every begin is eventually matched by an end). -/
def BalancedG (l : List GOp) : Prop :=
  (∀ i : ℕ, i ≤ l.length → ends (l.take i) ≤ begins (l.take i)) ∧
  begins l = ends l

instance : DecidablePred BalancedG := by
  intro l
  unfold BalancedG
  infer_instance

theorem runGuard_eq (l : List GOp) : ∀ d : ℤ,
    (∀ i : ℕ, i ≤ l.length → (ends (l.take i) : ℤ) ≤ d + begins (l.take i)) →
    runGuard d l = d + begins l - ends l := by
  induction l with
  | nil => intro d _; simp [runGuard, begins, ends]
  | cons op rest ih =>
    intro d hpre
    cases op with
    | gbegin =>
      have hrest : ∀ i : ℕ, i ≤ rest.length →
          (ends (rest.take i) : ℤ) ≤ (d + 1) + begins (rest.take i) := by
        intro i hi
        have := hpre (i + 1) (by simpa using Nat.succ_le_succ hi)
        simp only [List.take_succ_cons] at this
        simp only [begins, ends, List.countP_cons] at this ⊢
        simp at this
        omega
      have := ih (begin_synth d) (by simpa [begin_synth] using hrest)
      rw [runGuard, this]
      simp only [begins, ends, List.countP_cons, begin_synth]
      simp
      ring
    | gend =>
      have h1 := hpre 1 (by simp)
      have hd : 1 ≤ d := by
        simp only [List.take_succ_cons, List.take_zero, begins, ends,
          List.countP_cons, List.countP_nil] at h1
        simp at h1
        omega
      have hrest : ∀ i : ℕ, i ≤ rest.length →
          (ends (rest.take i) : ℤ) ≤ (d - 1) + begins (rest.take i) := by
        intro i hi
        have := hpre (i + 1) (by simpa using Nat.succ_le_succ hi)
        simp only [List.take_succ_cons] at this
        simp only [begins, ends, List.countP_cons] at this ⊢
        simp at this
        omega
      have hend : end_synth d = d - 1 := by
        simp [end_synth, show (0:ℤ) < d by omega]
      have := ih (end_synth d) (by simpa [hend] using hrest)
      rw [runGuard, this, hend]
      simp only [begins, ends, List.countP_cons]
      simp
      ring

/-- C4: the guard counter contract: `begin_synth` increments the depth,
`end_synth` decrements it but never below zero, `is_synth` is true iff
the depth is positive, and over every balanced begin/end sequence from
the initial depth the depth stays non-negative and the guard reads
inactive at quiescence. -/
theorem recoil_c4_guard_balance :
    (∀ d : ℤ, begin_synth d = d + 1) ∧
    (∀ d : ℤ, 0 < d → end_synth d = d - 1) ∧
    (∀ d : ℤ, 0 ≤ d → 0 ≤ end_synth d) ∧
    (∀ d : ℤ, is_synth d = true ↔ 0 < d) ∧
    (∀ l : List GOp, BalancedG l →
      runGuard 0 l = 0 ∧ is_synth (runGuard 0 l) = false ∧
      ∀ i : ℕ, i ≤ l.length → 0 ≤ runGuard 0 (l.take i)) := by
  refine ⟨fun d => rfl, ?_, ?_, ?_, ?_⟩
  · intro d hd; simp [end_synth, hd]
  · intro d hd
    unfold end_synth
    split <;> omega
  · intro d; simp [is_synth]
  · intro l hbal
    have hq : runGuard 0 l = 0 := by
      have := runGuard_eq l 0 (by
        intro i hi
        have := hbal.1 i hi
        omega)
      rw [this]
      have := hbal.2
      omega
    refine ⟨hq, by simp [is_synth, hq], ?_⟩
    intro i hi
    have hpre : ∀ j : ℕ, j ≤ (l.take i).length →
        (ends ((l.take i).take j) : ℤ) ≤ 0 + begins ((l.take i).take j) := by
      intro j hj
      have hj' : j ≤ l.length := le_trans hj (by simp)
      have := hbal.1 j hj'
      rw [List.take_take]
      have hmin : min j i = j := by
        simp only [List.length_take] at hj
        omega
      rw [hmin]
      omega
    have := runGuard_eq (l.take i) 0 hpre
    rw [this]
    have := hbal.1 i hi
    omega

/-- Witness for C4: the guard contract applied at depth 1 and to the
balanced sequence begin-begin-end-end. -/
theorem recoil_c4_guard_balance_witness :
    begin_synth 0 = 1 ∧ end_synth 1 = 0 ∧
    runGuard 0 [GOp.gbegin, GOp.gbegin, GOp.gend, GOp.gend] = 0 := by
  refine ⟨recoil_c4_guard_balance.1 0, recoil_c4_guard_balance.2.1 1 (by norm_num), ?_⟩
  exact (recoil_c4_guard_balance.2.2.2.2
    [GOp.gbegin, GOp.gbegin, GOp.gend, GOp.gend] (by decide)).1

/-- Apply one backend event to the set (as a list) of keys currently
physically down. -/
def applyEv (held : List Char) : Ev → List Char
  | Ev.keyDown c => c :: held
  | Ev.keyUp c => held.erase c
  | Ev.moveMouse _ _ => held

/-- Apply a trace of backend events to the set of keys currently
physically down. -/
def applyEvs (held : List Char) (evs : List Ev) : List Char :=
  evs.foldl applyEv held

/-- C7: rebinding the trigger key to a (normalised) different key while
it is held emits exactly key-up(old) then key-down(new); afterwards the
new key is held and is the trigger key; at every point along the
emitted trace at most one key is physically down; and with the trigger
not held no key event is emitted. -/
theorem recoil_c7_rebind_atomic (s : EngineSt) (key : Option String)
    (hne : normalize_key key ≠ s.triggerKey) :
    (s.triggerHeld = true →
      (set_trigger_key key s).2 =
        [Ev.keyUp s.triggerKey, Ev.keyDown (normalize_key key)] ∧
      ((set_trigger_key key s).1).triggerHeld = true ∧
      ((set_trigger_key key s).1).triggerKey = normalize_key key ∧
      ∀ n : ℕ,
        (applyEvs [s.triggerKey] (((set_trigger_key key s).2).take n)).length ≤ 1) ∧
    (s.triggerHeld = false → (set_trigger_key key s).2 = []) := by
  constructor
  · intro hh
    rw [setKey_held_eq key s hne hh]
    refine ⟨rfl, rfl, rfl, ?_⟩
    intro n
    match n with
    | 0 => simp [applyEvs]
    | 1 => simp [applyEvs, applyEv]
    | (n + 2) =>
      simp only [List.cons_append, List.nil_append, List.take_succ_cons,
        List.take_nil]
      simp [applyEvs, applyEv]
  · intro hh
    rw [setKey_unheld_eq key s hne hh]

/-- Witness for C7: rebinding from the held initial state to key q. -/
theorem recoil_c7_rebind_atomic_witness :
    (set_trigger_key (some "q")
      { triggerKey := 'p', triggerHeld := true, running := true,
        shooting := false, count := 0 }).2 =
      [Ev.keyUp 'p', Ev.keyDown 'q'] := by
  have h := (recoil_c7_rebind_atomic
    { triggerKey := 'p', triggerHeld := true, running := true,
      shooting := false, count := 0 } (some "q") (by decide)).1 rfl
  simpa using h.1

/-- The claim's reading of the key normalisation (for C10): truncate
the input to its first character and lowercase it, with empty, absent
or whitespace-only input mapped to the letter p. -/
def normalize_key_claim (key : Option String) : Char :=
  match key with
  | none => 'p'
  | some s =>
    if s.data.all isPythonSpace then 'p'
    else (s.data.headD 'p').toLower

/-- The amended reading of the key normalisation (for C10): the
lowercased first character, with empty or absent input, or input whose
first character is whitespace, mapped to the letter p. -/
def normalize_key_amended (key : Option String) : Char :=
  match key with
  | none => 'p'
  | some s =>
    match s.data with
    | [] => 'p'
    | c :: _ => if isPythonSpace c then 'p' else c.toLower

/-- Counterexample to C10 as stated: the input string of a space
followed by the letter a is not whitespace-only, so the claim maps it
to its lowercased first character, a space; the code maps it to p. -/
theorem recoil_c10_counterexample :
    normalize_key (some " a") = 'p' ∧
    normalize_key_claim (some " a") = ' ' ∧ ('p' : Char) ≠ ' ' := by
  refine ⟨by decide, by decide, by decide⟩

/-- C10 (amended): the trigger key produced from any input is the
lowercased first character of the input, except that absent or empty
input, or input whose first character is whitespace, yields p. -/
theorem recoil_c10_normalize_amended (key : Option String) :
    normalize_key key = normalize_key_amended key := by
  match key with
  | none => rfl
  | some s =>
    cases hd : s.data with
    | nil => simp [normalize_key, normalize_key_amended, hd]
    | cons c rest =>
      by_cases h : isPythonSpace c = true
      · simp only [normalize_key, normalize_key_amended, hd, h, if_true]
        decide
      · simp only [Bool.not_eq_true] at h
        simp [normalize_key, normalize_key_amended, hd, h]

/-- Whether a backend event is a mouse move. -/
def isMouseEv : Ev → Bool
  | Ev.moveMouse _ _ => true
  | _ => false

/-- The polled snapshot in which the firing condition holds with key
pressing enabled. -/
def polledAll : Polled :=
  { fire_enabled := true, right_hold := true, left_hold := true,
    press_key_enabled := true }

theorem tick_shoot_events (st : Polled) (cfg : WeaponConfig)
    (calcf : Option (ℚ → ℕ → Option ℚ)) (e : ℚ) (s : EngineSt)
    (hr : s.running = true) (hf : should_fire st = true) :
    ((tick st cfg calcf e s).2).filter isMouseEv =
      [Ev.moveMouse 0 (int_trunc (pull_of calcf cfg e
        ((if s.shooting then s.count else 0) + 1)))] ∧
    ((tick st cfg calcf e s).1).shooting = true ∧
    ((tick st cfg calcf e s).1).running = true ∧
    ((tick st cfg calcf e s).1).count =
      (if s.shooting then s.count else 0) + 1 := by
  obtain ⟨k, held, rn, sh, cnt⟩ := s
  simp only at hr
  subst hr
  cases hpke : st.press_key_enabled <;> cases held <;> cases sh <;>
    simp [tick, seqS, branchS, skipS, phase_release_disabled, phase_start,
      phase_shoot, phase_end, ensure_trigger_down, release_trigger,
      hf, hpke, isMouseEv]

/-- Counterexample to C3 as stated: on a shooting tick of the
scenario-A profile past the ramp the computed pull is 1.6, the code
emits a vertical offset of `int(1.6) = 1`, while nearest-integer
rounding gives 2. -/
theorem recoil_c3_counterexample :
    (tick polledAll profileA none (3/5)
      { triggerKey := 'p', triggerHeld := true, running := true,
        shooting := true, count := 0 }).2 = [Ev.moveMouse 0 1] ∧
    pull_of none profileA (3/5) 1 = 8/5 ∧
    round_nearest (8/5) = 2 ∧ (1 : ℤ) ≠ 2 := by
  refine ⟨?_, ?_, ?_, by decide⟩
  · have h1 : int_trunc (pull_of none profileA (3/5) 1) = 1 := by
      norm_num [int_trunc, pull_of, default_pull_curve, profileA]
    simp [tick, seqS, branchS, skipS, phase_release_disabled, phase_start,
      phase_shoot, phase_end, ensure_trigger_down, release_trigger,
      should_fire, polledAll, h1]
  · norm_num [pull_of, default_pull_curve, profileA]
  · norm_num [round_nearest]

/-- C3 (amended): on every shooting tick the engine emits exactly one
mouse move, with horizontal offset 0 and vertical offset `int(pull)`,
the truncation toward zero of the computed pull. -/
theorem recoil_c3_move_is_trunc (st : Polled) (cfg : WeaponConfig)
    (calcf : Option (ℚ → ℕ → Option ℚ)) (e : ℚ) (s : EngineSt)
    (hr : s.running = true) (hf : should_fire st = true) :
    ((tick st cfg calcf e s).2).filter isMouseEv =
      [Ev.moveMouse 0 (int_trunc (pull_of calcf cfg e
        ((if s.shooting then s.count else 0) + 1)))] :=
  (tick_shoot_events st cfg calcf e s hr hf).1

/-- Witness for C3 (amended): a concrete shooting tick on the
scenario-A profile. -/
theorem recoil_c3_move_is_trunc_witness :
    (tick polledAll profileA none (3/5)
      { triggerKey := 'p', triggerHeld := true, running := true,
        shooting := true, count := 4 }).2.filter isMouseEv =
      [Ev.moveMouse 0 (int_trunc (pull_of none profileA (3/5)
        ((if true then 4 else 0) + 1)))] := by
  exact recoil_c3_move_is_trunc polledAll profileA none (3/5)
    { triggerKey := 'p', triggerHeld := true, running := true,
      shooting := true, count := 4 } rfl rfl

/-- C6: if a supplied custom pull function fails on a shooting tick,
that same tick still emits exactly one mouse move, computed from the
profile steady pull, and the loop carries on (still running, still
shooting). -/
theorem recoil_c6_calc_failure_fallback (st : Polled) (cfg : WeaponConfig)
    (f : ℚ → ℕ → Option ℚ) (e : ℚ) (s : EngineSt)
    (hr : s.running = true) (hf : should_fire st = true)
    (hfail : f e ((if s.shooting then s.count else 0) + 1) = none) :
    ((tick st cfg (some f) e s).2).filter isMouseEv =
      [Ev.moveMouse 0 (int_trunc cfg.steadyPull)] ∧
    ((tick st cfg (some f) e s).1).shooting = true ∧
    ((tick st cfg (some f) e s).1).running = true := by
  have h := tick_shoot_events st cfg (some f) e s hr hf
  have hpull : pull_of (some f) cfg e ((if s.shooting then s.count else 0) + 1) =
      cfg.steadyPull := by
    simp [pull_of, hfail]
  refine ⟨?_, h.2.1, h.2.2.1⟩
  rw [h.1, hpull]

/-- Witness for C6: a concrete shooting tick with an always-failing
custom pull function on the scenario-A profile. -/
theorem recoil_c6_calc_failure_fallback_witness :
    ((tick polledAll profileA (some fun _ _ => none) (1/10)
      { triggerKey := 'p', triggerHeld := true, running := true,
        shooting := true, count := 7 }).2).filter isMouseEv =
      [Ev.moveMouse 0 (int_trunc profileA.steadyPull)] := by
  exact (recoil_c6_calc_failure_fallback polledAll profileA (fun _ _ => none)
    (1/10)
    { triggerKey := 'p', triggerHeld := true, running := true,
      shooting := true, count := 7 } rfl rfl rfl).1

/-- The polled snapshot read by `AutoClickThread.run` (with the dict
defaults of the code). -/
structure ClickPolled where
  auto_click_enabled : Bool := false
  left_hold : Bool := false
deriving Repr, DecidableEq

/-- Events of the auto-click loop: the synth-guard bracket, the
synthetic mouse button events, and the timed sleeps (milliseconds). -/
inductive ClickEv where
  | guardBegin
  | guardEnd
  | leftDown
  | leftUp
  | sleepMs (q : ℚ)
deriving Repr, DecidableEq

/-- State of `AutoClickThread`: `_running`, `_clicking`, `_synthing`,
`_hold_shadow`, `_last_synth_ts`, `_delay_ms`, `_rand_ms`. -/
structure ClickerSt where
  running : Bool
  clicking : Bool
  synthing : Bool
  hold_shadow : Bool
  last_synth_ts : ℚ
  delay_ms : ℤ
  rand_ms : ℤ
deriving Repr, DecidableEq

/-- The shadow-hold update performed at the top of every iteration of
`AutoClickThread.run`: a user hold latches the shadow; otherwise the
shadow is dropped only when the hardware reports not-held, no synthesis
is active, and strictly more than 0.03 s have passed since the last
synthetic click completed. -/
def shadow_next (user_hold physical_hold synthing : Bool)
    (now last : ℚ) (shadow : Bool) : Bool :=
  if user_hold then true
  else if !physical_hold && !synthing && decide (now - last > 3/100) then false
  else shadow

/-- `AutoClickThread.click_once`: a guard-bracketed synthetic left
down/up; on exit the guard is released and the completion time (`done`)
is stamped into `_last_synth_ts`. -/
def click_once (done : ℚ) (s : ClickerSt) : ClickerSt × List ClickEv :=
  ({ s with synthing := false, last_synth_ts := done },
   [ClickEv.guardBegin, ClickEv.leftDown, ClickEv.leftUp, ClickEv.guardEnd])

/-- One iteration of `AutoClickThread.run`.  `now` is the
`perf_counter` read of the iteration, `done` the completion timestamp
of the synthetic click when one is made, and `r` the uniform integer
draw from `[-rand_ms, rand_ms]`. -/
def auto_tick (st : ClickPolled) (physical_hold : Bool) (now done : ℚ)
    (r : ℤ) (s : ClickerSt) : ClickerSt × List ClickEv :=
  if s.running then
    let shadow := shadow_next st.left_hold physical_hold s.synthing now
      s.last_synth_ts s.hold_shadow
    let s1 := { s with hold_shadow := shadow }
    if st.auto_click_enabled && (physical_hold || shadow) then
      let s2 := { s1 with clicking := true }
      let a := click_once done s2
      (a.1, a.2 ++ [ClickEv.sleepMs ((max 1 (s.delay_ms + r) : ℤ) : ℚ)])
    else
      ({ s1 with clicking := false }, [ClickEv.sleepMs 10])
  else (s, [])

/-- Number of synthetic left-down events in an auto-click trace. -/
def leftDowns (evs : List ClickEv) : ℕ :=
  evs.countP (fun e => decide (e = ClickEv.leftDown))

/-- The claim's reading of the shadow-hold policy (for C5), with the
grace window read inclusively: the shadow is dropped when AT LEAST
0.03 s have passed since the last synthetic click completed. -/
def shadow_policy_claim (user_hold physical_hold synthing : Bool)
    (now last : ℚ) (shadow : Bool) : Bool :=
  if user_hold then true
  else if !physical_hold && !synthing && decide (now - last ≥ 3/100) then false
  else shadow

/-- A concrete auto-click state used below. -/
def cexClicker : ClickerSt :=
  { running := true, clicking := false, synthing := false,
    hold_shadow := true, last_synth_ts := 0, delay_ms := 20, rand_ms := 20 }

/-- Counterexample to C5 as stated: at exactly 0.03 s since the last
synthetic click (user hold false, hardware not held, no synthesis
active), the claim's inclusive reading drops the shadow hold but the
code, which requires strictly more than 0.03 s, keeps it. -/
theorem recoil_c5_counterexample :
    ((auto_tick { auto_click_enabled := false, left_hold := false } false
      (3/100) (3/100) 0 cexClicker).1).hold_shadow = true ∧
    shadow_policy_claim false false false (3/100) 0 true = false := by
  constructor
  · norm_num [auto_tick, shadow_next, click_once, cexClicker]
  · norm_num [shadow_policy_claim]

/-- C5 (amended): on every iteration of the auto-click loop the shadow
latch becomes true when the user hold is reported, is cleared when the
hardware reports not-held with no synthesis active and STRICTLY more
than 30 ms since the last synthetic click completed, and is otherwise
unchanged; and a click is performed on the iteration exactly when the
feature is enabled and the effective hold, physical OR shadow, is
true. -/
theorem recoil_c5_shadow_policy (st : ClickPolled) (ph : Bool)
    (now done : ℚ) (r : ℤ) (s : ClickerSt) (hr : s.running = true) :
    ((auto_tick st ph now done r s).1).hold_shadow =
      (if st.left_hold then true
       else if !ph && !s.synthing && decide (now - s.last_synth_ts > 3/100)
         then false
       else s.hold_shadow) ∧
    leftDowns (auto_tick st ph now done r s).2 =
      (if st.auto_click_enabled &&
          (ph || shadow_next st.left_hold ph s.synthing now s.last_synth_ts
            s.hold_shadow) then 1 else 0) := by
  constructor
  · simp only [auto_tick, hr, if_true]
    split <;> simp [click_once, shadow_next]
  · simp only [auto_tick, hr, if_true]
    split <;> simp [click_once, leftDowns, List.countP_cons]

/-- Witness for C5 (amended): a user-held iteration latches the shadow
hold. -/
theorem recoil_c5_shadow_policy_witness :
    ((auto_tick { auto_click_enabled := true, left_hold := true } true
      1 2 0 cexClicker).1).hold_shadow = true := by
  have h := recoil_c5_shadow_policy
    { auto_click_enabled := true, left_hold := true } true 1 2 0 cexClicker rfl
  rw [h.1]
  simp

/-- C8: on every clicking iteration the loop emits the guard-bracketed
click followed by a sleep of exactly `max 1 (delay_ms + r)`
milliseconds, and with `delay_ms = 20` and a draw `r` from `[-20, 20]`
that sleep lies in `[1, 40]` milliseconds. -/
theorem recoil_c8_click_delay (st : ClickPolled) (ph : Bool)
    (now done : ℚ) (r : ℤ) (s : ClickerSt) (hr : s.running = true)
    (hc : (st.auto_click_enabled &&
      (ph || shadow_next st.left_hold ph s.synthing now s.last_synth_ts
        s.hold_shadow)) = true) :
    (auto_tick st ph now done r s).2 =
      [ClickEv.guardBegin, ClickEv.leftDown, ClickEv.leftUp, ClickEv.guardEnd,
       ClickEv.sleepMs ((max 1 (s.delay_ms + r) : ℤ) : ℚ)] ∧
    (s.delay_ms = 20 → -20 ≤ r → r ≤ 20 →
      1 ≤ max 1 (s.delay_ms + r) ∧ max 1 (s.delay_ms + r) ≤ 40) := by
  constructor
  · simp only [auto_tick, hr, if_true, click_once, hc]
    simp
  · intro hd h1 h2
    rw [hd]
    refine ⟨le_max_left 1 _, max_le (by norm_num) (by omega)⟩

/-- Witness for C8: a clicking iteration with the draw at its upper
bound, 20, sleeps 40 ms. -/
theorem recoil_c8_click_delay_witness :
    (auto_tick { auto_click_enabled := true, left_hold := true } true
      1 2 20 cexClicker).2 =
      [ClickEv.guardBegin, ClickEv.leftDown, ClickEv.leftUp, ClickEv.guardEnd,
       ClickEv.sleepMs ((max 1 ((20:ℤ) + 20) : ℤ) : ℚ)] ∧
    1 ≤ max 1 ((20:ℤ) + 20) ∧ max 1 ((20:ℤ) + 20) ≤ 40 := by
  have h := recoil_c8_click_delay
    { auto_click_enabled := true, left_hold := true } true 1 2 20 cexClicker
    rfl (by norm_num [shadow_next, cexClicker])
  have hd : cexClicker.delay_ms = 20 := rfl
  refine ⟨?_, ?_⟩
  · have := h.1
    rw [hd] at this
    exact this
  · have := h.2 hd (by norm_num) (by norm_num)
    rw [hd] at this
    exact this
